import Mathlib

/-!
Shallow embedding of the chunked CSV scan engine of `src/app.py`
(`search_csv` and `aggregate_caen`), together with theorems settling the
spec claims about it.

Modelling choices:
* A cell of the table is `Option PyVal`: `none` is a pandas null (NaN),
  `some v` a scalar value.  A Python scalar is modelled by what the scan
  code can observe of it: its `str()` rendering, whether it is a string
  instance (pandas `.str` accessor yields NaN, hence non-matching, on
  non-strings), and the result of `float()` coercion (`none` when
  `float()` raises).  Numbers are `ℚ` rather than IEEE floats.
* A chunk produced by `pd.read_csv(..., chunksize=n)` is a header plus a
  list of rows; rows are positional lists of cells, column access goes
  through the header.  All chunks of one read share the source's header,
  so a source is one header plus all rows, and chunking splits the rows.
* Python exceptions that escape a function (the `KeyError` from
  `chunk['cod fiscal']` on a missing column) are modelled by `Option`:
  `none` is an aborted scan.
-/

/-- A Python scalar as the scan observes it: its `str()` rendering,
whether it is a `str` instance, and the result of `float()` coercion
(`none` when `float()` raises `ValueError`/`TypeError`). -/
structure PyVal where
  str : String
  isStr : Bool
  toFloat : Option ℚ
deriving DecidableEq, Repr

/-- A table cell: `none` models a pandas null (NaN). -/
abbrev Cell := Option PyVal

/-- A row is the positional list of its cells, aligned with the header. -/
abbrev Row := List Cell

/-- A chunk (and likewise a whole source): the header line naming the
columns, and the data rows. -/
structure Chunk where
  header : List String
  rows : List Row
deriving DecidableEq, Repr

/-- `chPref pat l`: `pat` is a prefix of `l` (Python `str.startswith`
on character lists). -/
def chPref : List Char → List Char → Bool
  | [], _ => true
  | _ :: _, [] => false
  | p :: ps, c :: cs => p == c && chPref ps cs

/-- `chSub l pat`: `pat` occurs as a contiguous run inside `l`
(Python's `pat in l` on character lists). -/
def chSub : List Char → List Char → Bool
  | [], pat => pat.isEmpty
  | c :: cs, pat => chPref pat (c :: cs) || chSub cs pat

/-- Python's `needle in hay` substring test on strings. -/
def pyIn (needle hay : String) : Bool :=
  chSub hay.toList needle.toList

/-- Python's `s.strip()`: drop leading and trailing whitespace. -/
def pyStrip (s : String) : String :=
  String.mk (((s.toList.dropWhile Char.isWhitespace).reverse.dropWhile
    Char.isWhitespace).reverse)

/-- Python's `s.lower()` (as far as the ASCII data at hand needs). -/
def pyLower (s : String) : String :=
  String.mk (s.toList.map Char.toLower)

/-- `astype(str)` / `str()` of a cell: pandas renders a null as the
string `"nan"`. -/
def cellStr : Cell → String
  | Option.none => "nan"
  | some v => v.str

/-- Python truthiness of an optional string argument: `None` and the
empty string are falsy (`if cif:` in `search_csv`). -/
def truthy : Option String → Bool
  | Option.none => false
  | some s => !s.isEmpty

/-- One step of `pd.read_csv(..., chunksize=n)`: split the row list into
consecutive windows of `n` rows, the last possibly shorter.  `fuel`
bounds the recursion; it is instantiated with the list's length. -/
def chunksOfAux (n : Nat) : Nat → List Row → List (List Row)
  | _, [] => []
  | 0, _ => []
  | fuel + 1, l => l.take n :: chunksOfAux n fuel (l.drop n)

/-- The chunk stream `pd.read_csv(url, chunksize=n)` yields for a source
with the given rows: consecutive windows of `n` rows in file order. -/
def chunksOf (n : Nat) (l : List Row) : List (List Row) :=
  chunksOfAux n l.length l

/-- `chunk[chunk['cod fiscal'].astype(str) == cif.strip()]` from
`search_csv`: when the `cif` criterion is truthy, look up the (exact,
case-sensitive) column `'cod fiscal'` and keep the rows whose
stringified cell equals the stripped criterion; a missing column raises
(`none`).  A falsy criterion leaves the chunk unchanged. -/
def cifFilter (header : List String) (cif : Option String) (rows : List Row) :
    Option (List Row) :=
  if truthy cif then
    match List.findIdx? (fun c => c == "cod fiscal") header with
    | some i =>
        some (rows.filter fun r => cellStr (r.getD i Option.none) == pyStrip (cif.getD ""))
    | Option.none => Option.none
  else
    some rows

/-- `chunk[chunk['denumire'].str.contains(denumire.strip(), case=False,
na=False)]` from `search_csv`: when the `denumire` criterion is truthy,
look up column `'denumire'` and keep the rows whose cell is a non-null
string containing the stripped criterion case-insensitively (`na=False`:
nulls and non-strings never match); a missing column raises (`none`).
Modelling note: `.str.contains` defaults to `regex=True`; the criterion
is modelled as a literal substring pattern, which coincides with the
pandas behaviour exactly when it contains no regex metacharacters. -/
def denFilter (header : List String) (denumire : Option String) (rows : List Row) :
    Option (List Row) :=
  if truthy denumire then
    match List.findIdx? (fun c => c == "denumire") header with
    | some i =>
        some (rows.filter fun r =>
          match r.getD i Option.none with
          | some v => v.isStr && pyIn (pyLower (pyStrip (denumire.getD ""))) (pyLower v.str)
          | Option.none => false)
    | Option.none => Option.none
  else
    some rows

/-- The body of `search_csv`'s loop for one chunk: the `cif` filter,
then the `denumire` filter. -/
def filterChunk (header : List String) (cif denumire : Option String)
    (rows : List Row) : Option (List Row) :=
  match cifFilter header cif rows with
  | some rs => denFilter header denumire rs
  | Option.none => Option.none

/-- The loop of `search_csv`: process each chunk in order, concatenating
the surviving rows (`matches.append` + `pd.concat`); an exception in any
chunk aborts the whole scan. -/
def collectChunks (header : List String) (cif denumire : Option String) :
    List (List Row) → Option (List Row)
  | [] => some []
  | c :: cs =>
    match filterChunk header cif denumire c with
    | Option.none => Option.none
    | some m =>
      match collectChunks header cif denumire cs with
      | Option.none => Option.none
      | some ms => some (m ++ ms)

/-- `search_csv(url, cif, denumire, chunksize)` of `src/app.py`: stream
the source in chunks of `chunksize` rows and collect the rows matching
the truthy criteria, in encounter order.  `none` models an uncaught
exception (missing required column). -/
def search_csv (src : Chunk) (cif denumire : Option String) (chunksize : Nat) :
    Option (List Row) :=
  collectChunks src.header cif denumire (chunksOf chunksize src.rows)

/-- The per-row predicate the `cif` branch of the loop realizes on a
chunk with the given header (`false` on rows of a chunk whose header
lacks the column — that case aborts instead of filtering). -/
def cifKeep (header : List String) (cif : Option String) (r : Row) : Bool :=
  if truthy cif then
    match List.findIdx? (fun c => c == "cod fiscal") header with
    | some i => cellStr (r.getD i Option.none) == pyStrip (cif.getD "")
    | Option.none => false
  else true

/-- The per-row predicate the `denumire` branch realizes. -/
def denKeep (header : List String) (denumire : Option String) (r : Row) : Bool :=
  if truthy denumire then
    match List.findIdx? (fun c => c == "denumire") header with
    | some i =>
      match r.getD i Option.none with
      | some v => v.isStr && pyIn (pyLower (pyStrip (denumire.getD ""))) (pyLower v.str)
      | Option.none => false
    | Option.none => false
  else true

/-- The combined row predicate of one pass of `search_csv`'s loop. -/
def rowKeep (header : List String) (cif denumire : Option String) (r : Row) : Bool :=
  cifKeep header cif r && denKeep header denumire r

/-- Whether a chunk with this header survives the loop body without an
exception: each truthy criterion's column must be present. -/
def chunkOk (header : List String) (cif denumire : Option String) : Bool :=
  (!truthy cif || (List.findIdx? (fun c => c == "cod fiscal") header).isSome) &&
  (!truthy denumire || (List.findIdx? (fun c => c == "denumire") header).isSome)

/-- Chunking-free description of `search_csv`: filter the whole row list
in one pass when the required columns are present; an empty source
yields no chunks, hence an empty result even when a column is missing;
otherwise the scan aborts. -/
def searchSpec (src : Chunk) (cif denumire : Option String) : Option (List Row) :=
  if chunkOk src.header cif denumire then
    some (src.rows.filter (rowKeep src.header cif denumire))
  else if src.rows.isEmpty then some [] else Option.none

/-! ## Aggregate-Scan (`aggregate_caen`) -/

/-- The pair of running `defaultdict`s of `aggregate_caen`:
`counts = defaultdict(int)` and `sums = defaultdict(float)`, as
association lists in insertion order (Python dicts preserve insertion
order). -/
structure Accum where
  counts : List (String × Nat)
  sums : List (String × ℚ)
deriving DecidableEq, Repr

/-- `d[k] += v` on a `defaultdict` whose default is `0`: add `v` to the
entry at `k`, appending `(k, v)` when `k` is absent (since `0 + v = v`).
Insertion order of the other keys is preserved. -/
def dictAdd {α : Type} [Add α] (k : String) (v : α) :
    List (String × α) → List (String × α)
  | [] => [(k, v)]
  | (k₂, w) :: rest =>
    if k₂ == k then (k₂, w + v) :: rest else (k₂, w) :: dictAdd k v rest

/-- What one row contributes under resolved column indices `i`
(grouping) and `j` (value): `none` when a cell is null (`dropna()`) or
`float()` raises, otherwise the key `str(row[0])` and the coerced
number. -/
def pairOf (i j : Nat) (r : Row) : Option (String × ℚ) :=
  match r.getD i Option.none, r.getD j Option.none with
  | some v₁, some v₂ => (v₂.toFloat).map fun q => (v₁.str, q)
  | _, _ => Option.none

/-- The body of `aggregate_caen`'s inner row loop, for resolved column
indices `i` (grouping) and `j` (value): rows with a null in either
column were dropped by `dropna()`; `str(row[0])` always succeeds;
`float(row[1])` either yields the number or raises, in which case the
bare `except: continue` leaves both dicts untouched. -/
def aggRow (i j : Nat) (acc : Accum) (r : Row) : Accum :=
  match r.getD i Option.none, r.getD j Option.none with
  | some v₁, some v₂ =>
    match v₂.toFloat with
    | some q => ⟨dictAdd v₁.str 1 acc.counts, dictAdd v₁.str q acc.sums⟩
    | Option.none => acc
  | _, _ => acc

/-- The inner row loop of `aggregate_caen` over a chunk's rows. -/
def aggRows (i j : Nat) (acc : Accum) (rows : List Row) : Accum :=
  rows.foldl (aggRow i j) acc

/-- `next(c for c in chunk.columns if c.lower() == caen_col)`: index of
the first column whose lowercasing equals the logical grouping name. -/
def resolveCaen (header : List String) (caen_col : String) : Option Nat :=
  List.findIdx? (fun c => pyLower c == caen_col) header

/-- `next(c for c in chunk.columns if afaceri_col in c.lower())`: index
of the first column whose lowercasing contains the logical value-column
fragment as a substring. -/
def resolveAfaceri (header : List String) (afaceri_col : String) : Option Nat :=
  List.findIdx? (fun c => pyIn afaceri_col (pyLower c)) header

/-- The body of `aggregate_caen`'s chunk loop: resolve both columns; on
`StopIteration` (`continue`) the whole chunk is skipped, otherwise every
row is folded through `aggRow`. -/
def aggChunk (caen_col afaceri_col : String) (acc : Accum) (ch : Chunk) : Accum :=
  match resolveCaen ch.header caen_col, resolveAfaceri ch.header afaceri_col with
  | some i, some j => aggRows i j acc ch.rows
  | _, _ => acc

/-- The accumulator after `aggregate_caen`'s full chunk loop. -/
def aggFold (caen_col afaceri_col : String) (chunks : List Chunk) : Accum :=
  chunks.foldl (aggChunk caen_col afaceri_col) ⟨[], []⟩

/-- One row of the result table of `aggregate_caen`: columns
`'Cod CAEN'`, `'Număr firme'`, `'Sumă cifră afaceri'`. -/
structure AggRow where
  key : String
  count : Nat
  sum : ℚ
deriving DecidableEq, Repr

/-- `pd.DataFrame({...: list(counts.keys()), ...: list(counts.values()),
...: list(sums.values())})`: the three columns are paired positionally. -/
def buildTable (counts : List (String × Nat)) (sums : List (String × ℚ)) :
    List AggRow :=
  List.zipWith (fun (p : String × Nat) (q : String × ℚ) => ⟨p.1, p.2, q.2⟩)
    counts sums

/-- The descending-by-sum comparison `.sort_values(..., ascending=False)`
sorts by. -/
def sumGE (x y : AggRow) : Prop := y.sum ≤ x.sum

instance : DecidableRel sumGE := fun x y => inferInstanceAs (Decidable (y.sum ≤ x.sum))

/-- `.sort_values(by='Sumă cifră afaceri', ascending=False)`: sort the
table by the sum column, largest first (tie order is unspecified in the
source; insertion sort realizes one admissible order). -/
def sortDesc (l : List AggRow) : List AggRow :=
  l.insertionSort sumGE

/-- `aggregate_caen(url, caen_col, afaceri_col, chunksize)` of
`src/app.py`, applied to the chunk stream the reader yields: fold every
chunk into the two accumulators, then render them as a table sorted by
sum descending. -/
def aggregate_caen (caen_col afaceri_col : String) (chunks : List Chunk) :
    List AggRow :=
  let acc := aggFold caen_col afaceri_col chunks
  sortDesc (buildTable acc.counts acc.sums)

/-- Declarative side for the refinement claims: the valid `(key, value)`
pairs a chunk contributes — from a chunk where both columns resolve, the
rows with non-null entries in both resolved columns whose value cell
coerces to a float, rendered as (stringified grouping value, coerced
number); an unresolvable chunk contributes nothing. -/
def validPairs (caen_col afaceri_col : String) (ch : Chunk) : List (String × ℚ) :=
  match resolveCaen ch.header caen_col, resolveAfaceri ch.header afaceri_col with
  | some i, some j => ch.rows.filterMap (pairOf i j)
  | _, _ => []

/-- All valid pairs across the chunk stream, in encounter order. -/
def allValidPairs (caen_col afaceri_col : String) (chunks : List Chunk) :
    List (String × ℚ) :=
  (chunks.map (validPairs caen_col afaceri_col)).flatten

/-- Fold one valid `(key, value)` pair into the two dictionaries. -/
def accStep (acc : Accum) (p : String × ℚ) : Accum :=
  ⟨dictAdd p.1 1 acc.counts, dictAdd p.1 p.2 acc.sums⟩

/-- Fold a list of valid pairs into the accumulator. -/
def accumPairs (acc : Accum) (ps : List (String × ℚ)) : Accum :=
  ps.foldl accStep acc

/-- Dictionary lookup with a default (`d.get(k, dv)`). -/
def lookupD {α : Type} (k : String) (d : List (String × α)) (dv : α) : α :=
  match d.find? (fun p => p.1 == k) with
  | some p => p.2
  | Option.none => dv

instance : IsTotal AggRow sumGE := ⟨fun a b => le_total b.sum a.sum⟩

instance : IsTrans AggRow sumGE := ⟨fun _ _ _ h₁ h₂ => le_trans h₂ h₁⟩

/-! ## Lemmas about the chunked search -/

theorem chunksOfAux_flatten (n : Nat) (hn : 0 < n) :
    ∀ (fuel : Nat) (l : List Row), l.length ≤ fuel →
      (chunksOfAux n fuel l).flatten = l := by
  intro fuel
  induction fuel with
  | zero =>
    intro l hl
    cases l with
    | nil => rfl
    | cons x xs => simp at hl
  | succ fuel ih =>
    intro l hl
    cases l with
    | nil => rfl
    | cons x xs =>
      show ((x :: xs).take n :: chunksOfAux n fuel ((x :: xs).drop n)).flatten
        = x :: xs
      rw [List.flatten_cons, ih]
      · exact List.take_append_drop n (x :: xs)
      · rw [List.length_drop]
        omega

theorem chunksOf_flatten (n : Nat) (hn : 0 < n) (l : List Row) :
    (chunksOf n l).flatten = l :=
  chunksOfAux_flatten n hn l.length l le_rfl

theorem chunksOf_nil (n : Nat) : chunksOf n [] = [] := rfl

theorem chunksOf_cons (n : Nat) (x : Row) (xs : List Row) :
    chunksOf n (x :: xs) =
      (x :: xs).take n :: chunksOfAux n xs.length ((x :: xs).drop n) := rfl

theorem cifFilter_ok (header : List String) (cif : Option String)
    (rows : List Row)
    (h : (!truthy cif || (List.findIdx? (fun c => c == "cod fiscal") header).isSome)
      = true) :
    cifFilter header cif rows = some (rows.filter (cifKeep header cif)) := by
  by_cases ht : truthy cif
  · rw [ht] at h
    simp only [Bool.not_true, Bool.false_or, Option.isSome_iff_exists] at h
    obtain ⟨i, hi⟩ := h
    have hk : cifKeep header cif
        = fun r => cellStr (r.getD i Option.none) == pyStrip (cif.getD "") := by
      funext r
      simp [cifKeep, ht, hi]
    simp [cifFilter, ht, hi, hk]
  · simp only [Bool.not_eq_true] at ht
    have hk : cifKeep header cif = fun _ => true := by
      funext r
      simp [cifKeep, ht]
    simp [cifFilter, ht, hk]

theorem denFilter_ok (header : List String) (denumire : Option String)
    (rows : List Row)
    (h : (!truthy denumire || (List.findIdx? (fun c => c == "denumire") header).isSome)
      = true) :
    denFilter header denumire rows = some (rows.filter (denKeep header denumire)) := by
  by_cases ht : truthy denumire
  · rw [ht] at h
    simp only [Bool.not_true, Bool.false_or, Option.isSome_iff_exists] at h
    obtain ⟨i, hi⟩ := h
    have hk : denKeep header denumire
        = fun r =>
          match r.getD i Option.none with
          | some v => v.isStr && pyIn (pyLower (pyStrip (denumire.getD ""))) (pyLower v.str)
          | Option.none => false := by
      funext r
      simp [denKeep, ht, hi]
    simp [denFilter, ht, hi, hk]
  · simp only [Bool.not_eq_true] at ht
    have hk : denKeep header denumire = fun _ => true := by
      funext r
      simp [denKeep, ht]
    simp [denFilter, ht, hk]

theorem filterChunk_ok (header : List String) (cif denumire : Option String)
    (rows : List Row) (h : chunkOk header cif denumire = true) :
    filterChunk header cif denumire rows
      = some (rows.filter (rowKeep header cif denumire)) := by
  simp only [chunkOk, Bool.and_eq_true] at h
  rw [filterChunk, cifFilter_ok header cif rows h.1]
  show denFilter header denumire (rows.filter (cifKeep header cif)) = _
  rw [denFilter_ok header denumire _ h.2, List.filter_filter]
  refine congrArg some (List.filter_congr ?_)
  intro r _
  rw [rowKeep]
  exact Bool.and_comm _ _

theorem filterChunk_err (header : List String) (cif denumire : Option String)
    (rows : List Row) (h : chunkOk header cif denumire = false) :
    filterChunk header cif denumire rows = Option.none := by
  simp only [chunkOk, Bool.and_eq_false_iff] at h
  cases h with
  | inl h =>
    have ht : truthy cif = true := by
      cases hcif : truthy cif with
      | true => rfl
      | false => rw [hcif] at h; simp at h
    rw [ht] at h
    simp only [Bool.not_true, Bool.false_or] at h
    cases hfind : List.findIdx? (fun c => c == "cod fiscal") header with
    | some i => rw [hfind] at h; simp at h
    | none => simp [filterChunk, cifFilter, ht, hfind]
  | inr h =>
    have ht : truthy denumire = true := by
      cases hden : truthy denumire with
      | true => rfl
      | false => rw [hden] at h; simp at h
    rw [ht] at h
    simp only [Bool.not_true, Bool.false_or] at h
    cases hfind : List.findIdx? (fun c => c == "denumire") header with
    | some i => rw [hfind] at h; simp at h
    | none =>
      rw [filterChunk]
      cases hc : cifFilter header cif rows with
      | none => rfl
      | some rs => simp [denFilter, ht, hfind]

theorem collectChunks_ok (header : List String) (cif denumire : Option String)
    (h : chunkOk header cif denumire = true) :
    ∀ cs : List (List Row),
      collectChunks header cif denumire cs
        = some (cs.flatten.filter (rowKeep header cif denumire)) := by
  intro cs
  induction cs with
  | nil => rfl
  | cons c cs ih =>
    rw [collectChunks, filterChunk_ok header cif denumire c h, ih]
    simp [List.filter_append]

theorem collectChunks_err (header : List String) (cif denumire : Option String)
    (h : chunkOk header cif denumire = false) (c : List Row) (cs : List (List Row)) :
    collectChunks header cif denumire (c :: cs) = Option.none := by
  rw [collectChunks, filterChunk_err header cif denumire c h]

/-- `search_csv` refines the chunking-free `searchSpec` for every
positive chunk size. -/
theorem search_csv_eq_spec (src : Chunk) (cif denumire : Option String)
    (n : Nat) (hn : 0 < n) :
    search_csv src cif denumire n = searchSpec src cif denumire := by
  rw [search_csv, searchSpec]
  cases hok : chunkOk src.header cif denumire with
  | true =>
    rw [if_pos rfl, collectChunks_ok src.header cif denumire hok,
      chunksOf_flatten n hn src.rows]
  | false =>
    rw [if_neg (by simp [hok])]
    cases hrows : src.rows with
    | nil => rw [chunksOf_nil]; rfl
    | cons x xs =>
      rw [chunksOf_cons, collectChunks_err src.header cif denumire hok]
      simp

theorem truthy_none : truthy Option.none = false := rfl

theorem truthy_some_ne {s : String} (hs : s ≠ "") : truthy (some s) = true := by
  rw [truthy]
  cases h : s.isEmpty with
  | true => exact absurd ((String.isEmpty_iff s).mp h) hs
  | false => rfl

theorem collectChunks_congr (header : List String) (c₁ d₁ c₂ d₂ : Option String)
    (h : ∀ rows, filterChunk header c₁ d₁ rows = filterChunk header c₂ d₂ rows) :
    ∀ cs, collectChunks header c₁ d₁ cs = collectChunks header c₂ d₂ cs := by
  intro cs
  induction cs with
  | nil => rfl
  | cons c cs ih => rw [collectChunks, collectChunks, h c, ih]

/-! ## Claims about Filter-Scan -/

/-- C2, counterexample: `search_csv` strips the criterion, not the
column value.  The row whose `cod fiscal` cell is `" 123 "` — i.e. the
criterion `"123"` surrounded by whitespace, which trims to `"123"` — is
not returned by an exact search for `"123"`, contradicting the claim
that it is. -/
theorem search_trim_cex :
    pyStrip " 123 " = "123"
      ∧ search_csv ⟨["cod fiscal"], [[some ⟨" 123 ", true, some 123⟩]]⟩
          (some "123") Option.none 1 = some [] := by
  constructor
  · rfl
  · rfl

/-- C2, amended: for every source whose header contains the exact,
case-sensitive column `"cod fiscal"` (at index `i`) and every non-empty
exact criterion, `search_csv` returns exactly the rows whose stringified
— but untrimmed — column value equals the criterion trimmed of
surrounding whitespace. -/
theorem search_exact_amended (src : Chunk) (s : String) (i n : Nat)
    (hs : s ≠ "") (hn : 0 < n)
    (hi : List.findIdx? (fun c => c == "cod fiscal") src.header = some i) :
    search_csv src (some s) Option.none n
      = some (src.rows.filter fun r => cellStr (r.getD i Option.none) == pyStrip s) := by
  rw [search_csv_eq_spec src (some s) Option.none n hn, searchSpec]
  have ht : truthy (some s) = true := truthy_some_ne hs
  have hok : chunkOk src.header (some s) Option.none = true := by
    simp [chunkOk, ht, hi, truthy_none]
  rw [if_pos hok]
  refine congrArg some (List.filter_congr ?_)
  intro r _
  rw [rowKeep, cifKeep, denKeep, ht]
  simp [hi, truthy_none]

theorem search_exact_amended_witness :
    ("123" : String) ≠ "" ∧ 0 < 1
      ∧ List.findIdx? (fun c => c == "cod fiscal") (["cod fiscal"] : List String)
          = some 0
      ∧ search_csv ⟨["cod fiscal"],
            [[some ⟨"123", false, some 123⟩], [some ⟨"456", false, some 456⟩]]⟩
          (some "123") Option.none 1
        = some ((⟨["cod fiscal"],
            [[some ⟨"123", false, some 123⟩], [some ⟨"456", false, some 456⟩]]⟩
              : Chunk).rows.filter
            fun r => cellStr (r.getD 0 Option.none) == pyStrip "123") :=
  ⟨by decide, by decide, by rfl,
    search_exact_amended
      ⟨["cod fiscal"],
        [[some ⟨"123", false, some 123⟩], [some ⟨"456", false, some 456⟩]]⟩
      "123" 0 1 (by decide) (by decide) (by rfl)⟩

/-- C3, counterexample: `search_csv` does not resolve columns at all; a
chunk whose header lacks the literal column `"cod fiscal"` makes the
whole scan fail (uncaught `KeyError`, modelled as `none`), contradicting
the claim that such a chunk is skipped and the scan continues. -/
theorem search_missing_cex :
    search_csv ⟨["x"], [[some ⟨"1", false, some 1⟩]]⟩ (some "1") Option.none 1
      = Option.none := by rfl

/-- C3, amended: `search_csv` accesses the fixed, case-sensitive column
names directly instead of using a Column Resolver; whenever a requested
criterion is truthy, its column (`"cod fiscal"` for the exact criterion,
`"denumire"` for the substring criterion) is absent from the header and
the source has at least one row, the whole scan fails instead of
skipping the chunk and continuing. -/
theorem search_missing_column_amended :
    (∀ (src : Chunk) (cif denumire : Option String) (n : Nat),
      truthy cif = true →
      List.findIdx? (fun c => c == "cod fiscal") src.header = Option.none →
      src.rows ≠ [] → 0 < n →
      search_csv src cif denumire n = Option.none)
    ∧ ∀ (src : Chunk) (cif denumire : Option String) (n : Nat),
      truthy denumire = true →
      List.findIdx? (fun c => c == "denumire") src.header = Option.none →
      src.rows ≠ [] → 0 < n →
      search_csv src cif denumire n = Option.none := by
  constructor
  · intro src cif denumire n ht hmiss hrows hn
    rw [search_csv_eq_spec src cif denumire n hn, searchSpec]
    have hok : chunkOk src.header cif denumire = false := by
      simp [chunkOk, ht, hmiss]
    rw [if_neg (by simp [hok]), if_neg (by simp [List.isEmpty_iff, hrows])]
  · intro src cif denumire n ht hmiss hrows hn
    rw [search_csv_eq_spec src cif denumire n hn, searchSpec]
    have hok : chunkOk src.header cif denumire = false := by
      simp [chunkOk, ht, hmiss]
    rw [if_neg (by simp [hok]), if_neg (by simp [List.isEmpty_iff, hrows])]

theorem search_missing_column_amended_witness :
    (truthy (some "1") = true
      ∧ List.findIdx? (fun c => c == "cod fiscal") (["x"] : List String)
          = Option.none
      ∧ ([[some ⟨"1", false, some 1⟩]] : List Row) ≠ []
      ∧ 0 < 1
      ∧ search_csv ⟨["x"], [[some ⟨"1", false, some 1⟩]]⟩ (some "1")
          Option.none 1 = Option.none)
    ∧ truthy (some "alpha") = true
      ∧ List.findIdx? (fun c => c == "denumire") (["cod fiscal"] : List String)
          = Option.none
      ∧ ([[some ⟨"1", false, some 1⟩]] : List Row) ≠ []
      ∧ 0 < 1
      ∧ search_csv ⟨["cod fiscal"], [[some ⟨"1", false, some 1⟩]]⟩
          Option.none (some "alpha") 1 = Option.none :=
  ⟨⟨by decide, by rfl, by decide, by decide,
    search_missing_column_amended.1 ⟨["x"], [[some ⟨"1", false, some 1⟩]]⟩
      (some "1") Option.none 1 (by decide) (by rfl) (by decide) (by decide)⟩,
    by decide, by rfl, by decide, by decide,
    search_missing_column_amended.2
      ⟨["cod fiscal"], [[some ⟨"1", false, some 1⟩]]⟩
      Option.none (some "alpha") 1 (by decide) (by rfl) (by decide)
      (by decide)⟩

/-- C7: for every source and criteria, any two positive chunk sizes give
the same `search_csv` result — the chunk size only affects batching. -/
theorem search_chunksize_independent (src : Chunk) (cif denumire : Option String)
    (n m : Nat) (hn : 0 < n) (hm : 0 < m) :
    search_csv src cif denumire n = search_csv src cif denumire m := by
  rw [search_csv_eq_spec src cif denumire n hn,
    search_csv_eq_spec src cif denumire m hm]

theorem search_chunksize_independent_witness :
    0 < 1 ∧ 0 < 2
      ∧ search_csv ⟨["cod fiscal"],
            [[some ⟨"123", false, some 123⟩], [some ⟨"456", false, some 456⟩],
              [some ⟨"123", false, some 123⟩]]⟩ (some "123") Option.none 1
        = search_csv ⟨["cod fiscal"],
            [[some ⟨"123", false, some 123⟩], [some ⟨"456", false, some 456⟩],
              [some ⟨"123", false, some 123⟩]]⟩ (some "123") Option.none 2 :=
  ⟨by decide, by decide,
    search_chunksize_independent
      ⟨["cod fiscal"],
        [[some ⟨"123", false, some 123⟩], [some ⟨"456", false, some 456⟩],
          [some ⟨"123", false, some 123⟩]]⟩
      (some "123") Option.none 1 2 (by decide) (by decide)⟩

/-- C8: with both criteria absent, `search_csv` is a full unfiltered
copy of the source — every row, in encounter order. -/
theorem search_no_criteria_full_copy (src : Chunk) (n : Nat) (hn : 0 < n) :
    search_csv src Option.none Option.none n = some src.rows := by
  rw [search_csv_eq_spec src Option.none Option.none n hn, searchSpec]
  have hok : chunkOk src.header Option.none Option.none = true := rfl
  rw [if_pos hok]
  refine congrArg some ?_
  have hk : rowKeep src.header Option.none Option.none = fun _ => true := by
    funext r
    rfl
  rw [hk, List.filter_true]

theorem search_no_criteria_full_copy_witness :
    0 < 1
      ∧ search_csv ⟨["cod fiscal", "denumire"],
            [[some ⟨"123", false, some 123⟩, some ⟨"Alpha SRL", true, Option.none⟩],
              [Option.none, Option.none]]⟩ Option.none Option.none 1
        = some (⟨["cod fiscal", "denumire"],
            [[some ⟨"123", false, some 123⟩, some ⟨"Alpha SRL", true, Option.none⟩],
              [Option.none, Option.none]]⟩ : Chunk).rows :=
  ⟨by decide,
    search_no_criteria_full_copy
      ⟨["cod fiscal", "denumire"],
        [[some ⟨"123", false, some 123⟩, some ⟨"Alpha SRL", true, Option.none⟩],
          [Option.none, Option.none]]⟩ 1 (by decide)⟩

/-- C9: an empty-string criterion is falsy in Python, so `search_csv`
treats it exactly like an absent criterion — a wildcard, not a predicate
matching empty column values. -/
theorem search_empty_string_wildcard :
    (∀ (src : Chunk) (denumire : Option String) (n : Nat),
      search_csv src (some "") denumire n
        = search_csv src Option.none denumire n)
    ∧ ∀ (src : Chunk) (cif : Option String) (n : Nat),
      search_csv src cif (some "") n = search_csv src cif Option.none n := by
  constructor
  · intro src denumire n
    exact collectChunks_congr src.header (some "") denumire Option.none denumire
      (fun _ => rfl) _
  · intro src cif n
    refine collectChunks_congr src.header cif (some "") cif Option.none ?_ _
    intro rows
    rw [filterChunk, filterChunk]
    cases cifFilter src.header cif rows with
    | none => rfl
    | some rs => rfl

/-! ## Lemmas about the aggregation dictionaries -/

theorem aggRow_pairOf (i j : Nat) (acc : Accum) (r : Row) :
    aggRow i j acc r
      = match pairOf i j r with
        | some p => accStep acc p
        | Option.none => acc := by
  rw [aggRow, pairOf]
  rcases r.getD i Option.none with _ | v₁ <;>
    rcases r.getD j Option.none with _ | v₂ <;>
      simp only [Option.map_none, Option.map_some]
  rcases v₂.toFloat with _ | q <;> rfl

theorem aggRows_eq (i j : Nat) (rows : List Row) :
    ∀ acc : Accum,
      aggRows i j acc rows = accumPairs acc (rows.filterMap (pairOf i j)) := by
  induction rows with
  | nil => intro acc; rfl
  | cons r rows ih =>
    intro acc
    show aggRows i j (aggRow i j acc r) rows = _
    rw [aggRow_pairOf]
    cases hp : pairOf i j r with
    | none =>
      rw [ih acc]
      simp [List.filterMap_cons, hp]
    | some p =>
      rw [ih (accStep acc p)]
      simp [List.filterMap_cons, hp]
      rfl

theorem aggChunk_eq (caen_col afaceri_col : String) (acc : Accum) (ch : Chunk) :
    aggChunk caen_col afaceri_col acc ch
      = accumPairs acc (validPairs caen_col afaceri_col ch) := by
  rw [aggChunk, validPairs]
  cases resolveCaen ch.header caen_col with
  | none =>
    cases resolveAfaceri ch.header afaceri_col with
    | none => rfl
    | some j => rfl
  | some i =>
    cases resolveAfaceri ch.header afaceri_col with
    | none => rfl
    | some j => exact aggRows_eq i j ch.rows acc

theorem foldl_aggChunk_eq (caen_col afaceri_col : String) (chunks : List Chunk) :
    ∀ acc : Accum,
      chunks.foldl (aggChunk caen_col afaceri_col) acc
        = accumPairs acc (allValidPairs caen_col afaceri_col chunks) := by
  induction chunks with
  | nil => intro acc; rfl
  | cons ch chunks ih =>
    intro acc
    show chunks.foldl (aggChunk caen_col afaceri_col)
        (aggChunk caen_col afaceri_col acc ch) = _
    rw [ih, aggChunk_eq]
    show _ = accumPairs acc
      (validPairs caen_col afaceri_col ch
        ++ allValidPairs caen_col afaceri_col chunks)
    rw [accumPairs, accumPairs, accumPairs, List.foldl_append]

theorem aggFold_eq (caen_col afaceri_col : String) (chunks : List Chunk) :
    aggFold caen_col afaceri_col chunks
      = accumPairs ⟨[], []⟩ (allValidPairs caen_col afaceri_col chunks) :=
  foldl_aggChunk_eq caen_col afaceri_col chunks ⟨[], []⟩

theorem keys_dictAdd {α : Type} [Add α] (k : String) (v : α)
    (d : List (String × α)) :
    (dictAdd k v d).map Prod.fst
      = if k ∈ d.map Prod.fst then d.map Prod.fst
        else d.map Prod.fst ++ [k] := by
  induction d with
  | nil => simp [dictAdd]
  | cons q d ih =>
    obtain ⟨k₂, w⟩ := q
    rw [dictAdd]
    by_cases h : k₂ = k
    · subst h
      simp
    · have hb : (k₂ == k) = false := by
        simp [h]
      rw [if_neg (by simp [hb])]
      simp only [List.map_cons, List.mem_cons]
      rw [ih]
      by_cases hm : k ∈ d.map Prod.fst
      · rw [if_pos hm, if_pos (Or.inr hm)]
      · rw [if_neg hm, if_neg (by
          intro hor
          rcases hor with he | hm'
          · exact h he.symm
          · exact hm hm')]
        rfl

theorem valsum_dictAdd {α : Type} [AddCommMonoid α] (k : String) (v : α)
    (d : List (String × α)) :
    ((dictAdd k v d).map Prod.snd).sum = (d.map Prod.snd).sum + v := by
  induction d with
  | nil => simp [dictAdd]
  | cons q d ih =>
    obtain ⟨k₂, w⟩ := q
    rw [dictAdd]
    by_cases h : (k₂ == k) = true
    · rw [if_pos h]
      simp only [List.map_cons, List.sum_cons]
      exact (add_right_comm w v _).trans (by rw [add_right_comm])
    · rw [if_neg (by simp [h])]
      simp only [List.map_cons, List.sum_cons]
      rw [ih, add_assoc]

theorem lookupD_dictAdd_self {α : Type} [AddCommMonoid α] (k : String) (v : α)
    (d : List (String × α)) :
    lookupD k (dictAdd k v d) 0 = lookupD k d 0 + v := by
  induction d with
  | nil => simp [dictAdd, lookupD]
  | cons q d ih =>
    obtain ⟨k₂, w⟩ := q
    rw [dictAdd]
    by_cases h : (k₂ == k) = true
    · rw [if_pos h]
      simp [lookupD, List.find?_cons, h]
    · rw [if_neg (by simp [h])]
      simp only [lookupD, List.find?_cons, h]
      exact ih

theorem lookupD_dictAdd_ne {α : Type} [Add α] (k' k : String) (v dv : α)
    (d : List (String × α)) (h : k' ≠ k) :
    lookupD k' (dictAdd k v d) dv = lookupD k' d dv := by
  induction d with
  | nil =>
    simp [dictAdd, lookupD, List.find?_cons, beq_eq_false_iff_ne, Ne.symm h]
  | cons q d ih =>
    obtain ⟨k₂, w⟩ := q
    rw [dictAdd]
    by_cases hk : (k₂ == k) = true
    · rw [if_pos hk]
      have hk₂ : k₂ = k := by simpa using hk
      subst hk₂
      have h2 : (k₂ == k') = false := beq_eq_false_iff_ne.mpr (Ne.symm h)
      simp [lookupD, List.find?_cons, h2]
    · rw [if_neg (by simp [hk])]
      simp only [lookupD, List.find?_cons]
      cases hq : (k₂ == k')
      · simp [hq] at ih ⊢
        exact ih
      · simp [hq] at ih ⊢

theorem mem_dictAdd {α : Type} [Add α] (k : String) (v : α)
    (d : List (String × α)) (p : String × α) (hp : p ∈ dictAdd k v d) :
    p ∈ d ∨ (∃ w, (k, w) ∈ d ∧ p = (k, w + v)) ∨ p = (k, v) := by
  induction d with
  | nil =>
    right; right
    simpa [dictAdd] using hp
  | cons q d ih =>
    obtain ⟨k₂, w⟩ := q
    rw [dictAdd] at hp
    by_cases h : (k₂ == k) = true
    · rw [if_pos h] at hp
      have hk : k₂ = k := by
        simpa using h
      subst hk
      rcases List.mem_cons.mp hp with h1 | h2
      · exact Or.inr (Or.inl ⟨w, List.mem_cons_self _ _, h1⟩)
      · exact Or.inl (List.mem_cons_of_mem _ h2)
    · rw [if_neg (by simp [h])] at hp
      rcases List.mem_cons.mp hp with h1 | h2
      · exact Or.inl (h1 ▸ List.mem_cons_self _ _)
      · rcases ih h2 with hm | ⟨w', hw', he⟩ | he
        · exact Or.inl (List.mem_cons_of_mem _ hm)
        · exact Or.inr (Or.inl ⟨w', List.mem_cons_of_mem _ hw', he⟩)
        · exact Or.inr (Or.inr he)

theorem nodup_keys_dictAdd {α : Type} [Add α] (k : String) (v : α)
    (d : List (String × α)) (h : (d.map Prod.fst).Nodup) :
    ((dictAdd k v d).map Prod.fst).Nodup := by
  rw [keys_dictAdd]
  by_cases hm : k ∈ d.map Prod.fst
  · rw [if_pos hm]
    exact h
  · rw [if_neg hm]
    rw [List.nodup_append]
    exact ⟨h, List.nodup_singleton k, by
      intro a ha hb
      rw [List.mem_singleton] at hb
      exact hm (hb ▸ ha)⟩

theorem counts_valsum_accumPairs (ps : List (String × ℚ)) :
    ∀ acc : Accum,
      ((accumPairs acc ps).counts.map Prod.snd).sum
        = (acc.counts.map Prod.snd).sum + ps.length := by
  induction ps with
  | nil => intro acc; simp [accumPairs]
  | cons p ps ih =>
    intro acc
    show ((accumPairs (accStep acc p) ps).counts.map Prod.snd).sum = _
    rw [ih (accStep acc p)]
    show ((dictAdd p.1 1 acc.counts).map Prod.snd).sum + ps.length = _
    rw [valsum_dictAdd]
    simp
    omega

theorem keys_align_accumPairs (ps : List (String × ℚ)) :
    ∀ acc : Accum, acc.counts.map Prod.fst = acc.sums.map Prod.fst →
      (accumPairs acc ps).counts.map Prod.fst
        = (accumPairs acc ps).sums.map Prod.fst := by
  induction ps with
  | nil => intro acc h; exact h
  | cons p ps ih =>
    intro acc h
    apply ih
    show (dictAdd p.1 1 acc.counts).map Prod.fst
      = (dictAdd p.1 p.2 acc.sums).map Prod.fst
    rw [keys_dictAdd, keys_dictAdd, h]

theorem counts_pos_accumPairs (ps : List (String × ℚ)) :
    ∀ acc : Accum, (∀ p ∈ acc.counts, 1 ≤ p.2) →
      ∀ p ∈ (accumPairs acc ps).counts, 1 ≤ p.2 := by
  induction ps with
  | nil => intro acc h; exact h
  | cons q ps ih =>
    intro acc h
    apply ih
    intro p hp
    rcases mem_dictAdd q.1 1 acc.counts p hp with h1 | ⟨w, _, he⟩ | he
    · exact h p h1
    · rw [he]
      exact Nat.le_add_left 1 w
    · rw [he]

theorem nodup_sums_accumPairs (ps : List (String × ℚ)) :
    ∀ acc : Accum, (acc.sums.map Prod.fst).Nodup →
      ((accumPairs acc ps).sums.map Prod.fst).Nodup := by
  induction ps with
  | nil => intro acc h; exact h
  | cons p ps ih =>
    intro acc h
    exact ih (accStep acc p) (nodup_keys_dictAdd p.1 p.2 acc.sums h)

theorem lookupD_sums_accumPairs (k : String) (ps : List (String × ℚ)) :
    ∀ acc : Accum,
      lookupD k (accumPairs acc ps).sums 0
        = lookupD k acc.sums 0
          + (((ps.filter fun p => p.1 == k).map Prod.snd)).sum := by
  induction ps with
  | nil => intro acc; simp [accumPairs]
  | cons p ps ih =>
    intro acc
    show lookupD k (accumPairs (accStep acc p) ps).sums 0 = _
    rw [ih (accStep acc p)]
    by_cases h : (p.1 == k) = true
    · have hk : p.1 = k := by simpa using h
      rw [show (accStep acc p).sums = dictAdd p.1 p.2 acc.sums from rfl, hk,
        lookupD_dictAdd_self, List.filter_cons, if_pos h]
      simp [add_assoc]
    · have hk : k ≠ p.1 := by
        intro e
        rw [e] at h
        simp at h
      rw [show (accStep acc p).sums = dictAdd p.1 p.2 acc.sums from rfl,
        lookupD_dictAdd_ne k p.1 p.2 0 acc.sums hk, List.filter_cons,
        if_neg (by simp [h])]

theorem lookupD_of_mem {α : Type} (k : String) (v dv : α)
    (d : List (String × α)) (hnd : (d.map Prod.fst).Nodup)
    (hm : (k, v) ∈ d) : lookupD k d dv = v := by
  induction d with
  | nil => simp at hm
  | cons q d ih =>
    simp only [List.map_cons, List.nodup_cons] at hnd
    rcases List.mem_cons.mp hm with he | hm'
    · rw [← he]
      simp [lookupD, List.find?_cons]
    · have hk : (q.1 == k) = false := by
        refine beq_eq_false_iff_ne.mpr ?_
        intro e
        exact hnd.1 (e ▸ List.mem_map.mpr ⟨(k, v), hm', rfl⟩)
      simp only [lookupD, List.find?_cons, hk]
      exact ih hnd.2 hm'

theorem buildTable_count_map :
    ∀ (counts : List (String × Nat)) (sums : List (String × ℚ)),
      counts.length = sums.length →
      (buildTable counts sums).map AggRow.count = counts.map Prod.snd := by
  intro counts
  induction counts with
  | nil => intro sums _; rfl
  | cons c cs ih =>
    intro sums h
    cases sums with
    | nil => simp at h
    | cons s ss =>
      show AggRow.count ⟨c.1, c.2, s.2⟩ :: (buildTable cs ss).map AggRow.count
        = c.2 :: cs.map Prod.snd
      rw [ih ss (by simpa using h)]

theorem mem_buildTable :
    ∀ (counts : List (String × Nat)) (sums : List (String × ℚ)),
      counts.map Prod.fst = sums.map Prod.fst →
      ∀ x ∈ buildTable counts sums,
        (x.key, x.count) ∈ counts ∧ (x.key, x.sum) ∈ sums := by
  intro counts
  induction counts with
  | nil =>
    intro sums _ x hx
    simp [buildTable] at hx
  | cons c cs ih =>
    intro sums h x hx
    cases sums with
    | nil => simp at h
    | cons s ss =>
      simp only [List.map_cons, List.cons.injEq] at h
      rcases List.mem_cons.mp hx with he | hx'
      · constructor
        · rw [he]
          exact List.mem_cons_self _ _
        · rw [he]
          show (c.1, s.2) ∈ (s :: ss)
          rw [h.1]
          exact List.mem_cons_self _ _
      · obtain ⟨h1, h2⟩ := ih ss h.2 x hx'
        exact ⟨List.mem_cons_of_mem _ h1, List.mem_cons_of_mem _ h2⟩

theorem sortDesc_perm (l : List AggRow) : (sortDesc l).Perm l :=
  List.perm_insertionSort sumGE l

/-- Helper: the final table only depends on the folded accumulator. -/
theorem aggregate_caen_congr (caen_col afaceri_col : String)
    (chs chs' : List Chunk)
    (h : aggFold caen_col afaceri_col chs = aggFold caen_col afaceri_col chs') :
    aggregate_caen caen_col afaceri_col chs
      = aggregate_caen caen_col afaceri_col chs' := by
  rw [aggregate_caen, aggregate_caen, h]

/-! ## Claims about Aggregate-Scan -/

/-- C6: the table returned by `aggregate_caen` is sorted by the sum
column in descending order — every adjacent pair of result rows
satisfies `sum[i] ≥ sum[i+1]`. -/
theorem agg_sorted_desc (caen_col afaceri_col : String) (chunks : List Chunk) :
    List.Chain' (fun x y : AggRow => y.sum ≤ x.sum)
      (aggregate_caen caen_col afaceri_col chunks) := by
  haveI : IsTrans AggRow (fun x y : AggRow => y.sum ≤ x.sum) :=
    ⟨fun _ _ _ h₁ h₂ => le_trans h₂ h₁⟩
  exact List.chain'_iff_pairwise.mpr
    (List.sorted_insertionSort sumGE
      (buildTable (aggFold caen_col afaceri_col chunks).counts
        (aggFold caen_col afaceri_col chunks).sums))

/-- C5: a chunk in which the grouping column (case-insensitive exact
match) or the value column (case-insensitive substring match) cannot be
resolved contributes nothing: the chunk loop body is the identity on the
accumulator, and deleting the chunk from the stream leaves the final
table unchanged — the scan continues instead of aborting. -/
theorem agg_unresolvable_chunk_skipped (caen_col afaceri_col : String)
    (pre post : List Chunk) (ch : Chunk)
    (h : resolveCaen ch.header caen_col = Option.none
      ∨ resolveAfaceri ch.header afaceri_col = Option.none) :
    (∀ acc : Accum, aggChunk caen_col afaceri_col acc ch = acc)
    ∧ aggregate_caen caen_col afaceri_col (pre ++ ch :: post)
      = aggregate_caen caen_col afaceri_col (pre ++ post) := by
  have hch : ∀ acc : Accum, aggChunk caen_col afaceri_col acc ch = acc := by
    intro acc
    rw [aggChunk]
    rcases hc : resolveCaen ch.header caen_col with _ | i <;>
      rcases ha : resolveAfaceri ch.header afaceri_col with _ | j <;>
        try rfl
    rcases h with h | h
    · rw [hc] at h
      exact Option.noConfusion h
    · rw [ha] at h
      exact Option.noConfusion h
  refine ⟨hch, aggregate_caen_congr caen_col afaceri_col _ _ ?_⟩
  rw [aggFold, aggFold, List.foldl_append, List.foldl_append, List.foldl_cons,
    hch]

theorem agg_unresolvable_chunk_skipped_witness :
    (resolveCaen ["x"] "cod caen" = Option.none
      ∨ resolveAfaceri ["x"] "cifra de afaceri" = Option.none)
    ∧ (∀ acc : Accum,
        aggChunk "cod caen" "cifra de afaceri" acc
          ⟨["x"], [[some ⟨"1071", true, some 1071⟩]]⟩ = acc)
    ∧ aggregate_caen "cod caen" "cifra de afaceri"
        ([⟨["cod caen", "cifra de afaceri"],
            [[some ⟨"1071", true, some 1071⟩, some ⟨"100.0", false, some 100⟩]]⟩]
          ++ ⟨["x"], [[some ⟨"1071", true, some 1071⟩]]⟩ :: [])
      = aggregate_caen "cod caen" "cifra de afaceri"
        ([⟨["cod caen", "cifra de afaceri"],
            [[some ⟨"1071", true, some 1071⟩, some ⟨"100.0", false, some 100⟩]]⟩]
          ++ []) :=
  ⟨Or.inl rfl,
    (agg_unresolvable_chunk_skipped "cod caen" "cifra de afaceri"
      [⟨["cod caen", "cifra de afaceri"],
        [[some ⟨"1071", true, some 1071⟩, some ⟨"100.0", false, some 100⟩]]⟩]
      [] ⟨["x"], [[some ⟨"1071", true, some 1071⟩]]⟩ (Or.inl rfl)).1,
    (agg_unresolvable_chunk_skipped "cod caen" "cifra de afaceri"
      [⟨["cod caen", "cifra de afaceri"],
        [[some ⟨"1071", true, some 1071⟩, some ⟨"100.0", false, some 100⟩]]⟩]
      [] ⟨["x"], [[some ⟨"1071", true, some 1071⟩]]⟩ (Or.inl rfl)).2⟩

/-- C4: a row whose value cell fails `float()` coercion (both cells
non-null, so it survives `dropna()`) is skipped without raising and
leaves the accumulator exactly as it was — no count, no sum, no other
key is touched — and deleting the row from its chunk leaves the final
table unchanged. -/
theorem agg_bad_value_row_skipped (caen_col afaceri_col : String)
    (pre post : List Chunk) (header : List String) (l₁ l₂ : List Row)
    (r : Row) (i j : Nat) (v₁ v₂ : PyVal)
    (hi : resolveCaen header caen_col = some i)
    (hj : resolveAfaceri header afaceri_col = some j)
    (h₁ : r.getD i Option.none = some v₁)
    (h₂ : r.getD j Option.none = some v₂)
    (hf : v₂.toFloat = Option.none) :
    (∀ acc : Accum, aggRow i j acc r = acc)
    ∧ aggregate_caen caen_col afaceri_col
        (pre ++ ⟨header, l₁ ++ r :: l₂⟩ :: post)
      = aggregate_caen caen_col afaceri_col
        (pre ++ ⟨header, l₁ ++ l₂⟩ :: post) := by
  have hp : pairOf i j r = Option.none := by
    rw [pairOf, h₁, h₂]
    show Option.map _ v₂.toFloat = Option.none
    rw [hf]
    rfl
  have hrow : ∀ acc : Accum, aggRow i j acc r = acc := by
    intro acc
    rw [aggRow_pairOf, hp]
  have hchunk : ∀ acc : Accum,
      aggChunk caen_col afaceri_col acc ⟨header, l₁ ++ r :: l₂⟩
        = aggChunk caen_col afaceri_col acc ⟨header, l₁ ++ l₂⟩ := by
    intro acc
    show (match resolveCaen header caen_col, resolveAfaceri header afaceri_col
        with
      | some i, some j => aggRows i j acc (l₁ ++ r :: l₂)
      | _, _ => acc) = (match resolveCaen header caen_col,
          resolveAfaceri header afaceri_col with
      | some i, some j => aggRows i j acc (l₁ ++ l₂)
      | _, _ => acc)
    rw [hi, hj]
    show aggRows i j acc (l₁ ++ r :: l₂) = aggRows i j acc (l₁ ++ l₂)
    rw [aggRows, aggRows, List.foldl_append, List.foldl_append,
      List.foldl_cons, hrow]
  refine ⟨hrow, aggregate_caen_congr caen_col afaceri_col _ _ ?_⟩
  rw [aggFold, aggFold, List.foldl_append, List.foldl_append,
    List.foldl_cons, List.foldl_cons, hchunk]

theorem agg_bad_value_row_skipped_witness :
    resolveCaen ["cod caen", "cifra de afaceri"] "cod caen" = some 0
    ∧ resolveAfaceri ["cod caen", "cifra de afaceri"] "cifra de afaceri"
        = some 1
    ∧ ([some ⟨"2222", true, some 2222⟩, some ⟨"abc", true, Option.none⟩]
        : Row).getD 0 Option.none = some ⟨"2222", true, some 2222⟩
    ∧ ([some ⟨"2222", true, some 2222⟩, some ⟨"abc", true, Option.none⟩]
        : Row).getD 1 Option.none = some ⟨"abc", true, Option.none⟩
    ∧ (⟨"abc", true, Option.none⟩ : PyVal).toFloat = Option.none
    ∧ aggregate_caen "cod caen" "cifra de afaceri"
        ([] ++ ⟨["cod caen", "cifra de afaceri"],
          [[some ⟨"1071", true, some 1071⟩, some ⟨"100.0", false, some 100⟩]]
            ++ [some ⟨"2222", true, some 2222⟩,
                some ⟨"abc", true, Option.none⟩] :: []⟩ :: [])
      = aggregate_caen "cod caen" "cifra de afaceri"
        ([] ++ ⟨["cod caen", "cifra de afaceri"],
          [[some ⟨"1071", true, some 1071⟩, some ⟨"100.0", false, some 100⟩]]
            ++ []⟩ :: []) :=
  ⟨rfl, rfl, rfl, rfl, rfl,
    (agg_bad_value_row_skipped "cod caen" "cifra de afaceri" [] []
      ["cod caen", "cifra de afaceri"]
      [[some ⟨"1071", true, some 1071⟩, some ⟨"100.0", false, some 100⟩]] []
      [some ⟨"2222", true, some 2222⟩, some ⟨"abc", true, Option.none⟩]
      0 1 ⟨"2222", true, some 2222⟩ ⟨"abc", true, Option.none⟩
      rfl rfl rfl rfl rfl).2⟩

/-- C10: at any point of the scan — after any number of whole chunks and
any prefix of a further chunk's rows under any resolved column indices —
the counts and sums dictionaries hold exactly the same keys in the same
insertion order and every stored count is at least 1; consequently every
row of the returned table pairs the count and the sum of one and the
same grouping key. -/
theorem agg_accumulator_invariant (caen_col afaceri_col : String)
    (chunks : List Chunk) (i j : Nat) (rows : List Row) :
    ((aggRows i j (aggFold caen_col afaceri_col chunks) rows).counts.map
          Prod.fst
        = (aggRows i j (aggFold caen_col afaceri_col chunks) rows).sums.map
            Prod.fst
      ∧ ∀ p ∈ (aggRows i j (aggFold caen_col afaceri_col chunks) rows).counts,
          1 ≤ p.2)
    ∧ ∀ r ∈ aggregate_caen caen_col afaceri_col chunks,
        (r.key, r.count) ∈ (aggFold caen_col afaceri_col chunks).counts
        ∧ (r.key, r.sum) ∈ (aggFold caen_col afaceri_col chunks).sums := by
  have hmid : aggRows i j (aggFold caen_col afaceri_col chunks) rows
      = accumPairs
          (accumPairs ⟨[], []⟩ (allValidPairs caen_col afaceri_col chunks))
          (rows.filterMap (pairOf i j)) := by
    rw [aggRows_eq i j rows, aggFold_eq]
  have halign0 : (aggFold caen_col afaceri_col chunks).counts.map Prod.fst
      = (aggFold caen_col afaceri_col chunks).sums.map Prod.fst := by
    rw [aggFold_eq]
    exact keys_align_accumPairs _ ⟨[], []⟩ rfl
  refine ⟨⟨?_, ?_⟩, ?_⟩
  · rw [hmid]
    refine keys_align_accumPairs _ _ ?_
    exact keys_align_accumPairs _ ⟨[], []⟩ rfl
  · rw [hmid]
    refine counts_pos_accumPairs _ _ ?_
    refine counts_pos_accumPairs _ ⟨[], []⟩ ?_
    intro p hp
    simp at hp
  · intro r hr
    have hr' : r ∈ buildTable (aggFold caen_col afaceri_col chunks).counts
        (aggFold caen_col afaceri_col chunks).sums :=
      (List.mem_insertionSort sumGE).mp hr
    exact mem_buildTable _ _ halign0 r hr'

/-- C1: the total of the count column over all returned keys equals the
number of valid source rows — rows of resolvable chunks with non-null
entries in both resolved columns whose value cell coerces to a float —
and each returned row's sum equals the arithmetic sum of the coerced
values of exactly the valid rows whose stringified grouping value is
that row's key. -/
theorem agg_totals_correct (caen_col afaceri_col : String)
    (chunks : List Chunk) :
    ((aggregate_caen caen_col afaceri_col chunks).map AggRow.count).sum
        = (allValidPairs caen_col afaceri_col chunks).length
      ∧ ∀ r ∈ aggregate_caen caen_col afaceri_col chunks,
          r.sum = (((allValidPairs caen_col afaceri_col chunks).filter
              fun p => p.1 == r.key).map Prod.snd).sum := by
  have hfold := aggFold_eq caen_col afaceri_col chunks
  have halign : (aggFold caen_col afaceri_col chunks).counts.map Prod.fst
      = (aggFold caen_col afaceri_col chunks).sums.map Prod.fst := by
    rw [hfold]
    exact keys_align_accumPairs _ ⟨[], []⟩ rfl
  have hlen : (aggFold caen_col afaceri_col chunks).counts.length
      = (aggFold caen_col afaceri_col chunks).sums.length := by
    have h := congrArg List.length halign
    simpa using h
  constructor
  · calc ((aggregate_caen caen_col afaceri_col chunks).map AggRow.count).sum
        = ((buildTable (aggFold caen_col afaceri_col chunks).counts
            (aggFold caen_col afaceri_col chunks).sums).map AggRow.count).sum :=
          List.Perm.sum_eq ((sortDesc_perm _).map AggRow.count)
      _ = ((aggFold caen_col afaceri_col chunks).counts.map Prod.snd).sum := by
          rw [buildTable_count_map _ _ hlen]
      _ = (allValidPairs caen_col afaceri_col chunks).length := by
          rw [hfold]
          have h := counts_valsum_accumPairs
            (allValidPairs caen_col afaceri_col chunks) ⟨[], []⟩
          simpa using h
  · intro r hr
    have hr' : r ∈ buildTable (aggFold caen_col afaceri_col chunks).counts
        (aggFold caen_col afaceri_col chunks).sums :=
      (List.mem_insertionSort sumGE).mp hr
    obtain ⟨_, hs⟩ := mem_buildTable _ _ halign r hr'
    have hnd : ((aggFold caen_col afaceri_col chunks).sums.map Prod.fst).Nodup := by
      rw [hfold]
      exact nodup_sums_accumPairs _ ⟨[], []⟩ (by simp)
    have hlook : lookupD r.key (aggFold caen_col afaceri_col chunks).sums 0
        = r.sum :=
      lookupD_of_mem r.key r.sum 0 _ hnd hs
    rw [← hlook, hfold, lookupD_sums_accumPairs]
    simp [lookupD]
